import Mathlib

/-!
Verification of the XpressNetMaster library (XpressNetMaster.h) against its
natural-language specification.  The repository ships only the class header;
the member-function bodies live in a translation unit that is not part of the
sources here, so those operations are modelled from the specification (each
such definition says so in its doc comment).  Constants, field declarations,
array sizes and function signatures are taken directly from the header.
-/

namespace XpressNet

/-- `#define XNetBufferSize 5` (XpressNetMaster.h line 105). -/
def XNetBufferSize : Nat := 5

/-- `#define XNetBufferMaxData 10` (XpressNetMaster.h line 143). -/
def XNetBufferMaxData : Nat := 10

/-- `#define XNetSlaveCycle 0xFF` (XpressNetMaster.h line 108): max cycles to
stay in slave mode when no call byte is received. -/
def XNetSlaveCycle : Nat := 0xFF

/-! ## Wire codec

`getXOR` and `XNetCheckXOR` are declared in the header (lines 263, 251); their
bodies are not in the sources, so they are modelled from the spec. -/

/-- Running exclusive-or of a byte sequence, the accumulator form used by a
`for` loop starting from `0`. -/
def xorFold (acc : Nat) : List Nat → Nat
  | [] => acc
  | b :: rest => xorFold (acc ^^^ b) rest

/-- Modelled from the spec: `getXOR` (missing from src) computes the checksum
as the exclusive-or reduction of all bytes from the header through the last
data byte (the call byte is excluded from the checksum domain). -/
def getXOR (headerAndData : List Nat) : Nat :=
  xorFold 0 headerAndData

/-- Modelled from the spec: `encode` builds an outbound frame by appending the
checksum byte after the header and data bytes. -/
def encode (header : Nat) (data : List Nat) : List Nat :=
  header :: data ++ [getXOR (header :: data)]

/-- Modelled from the spec: `XNetCheckXOR` (missing from src) validates a
received frame: the exclusive-or of the entire frame, header through the
trailing checksum byte inclusive, must equal zero. -/
def XNetCheckXOR (frame : List Nat) : Bool :=
  xorFold 0 frame == 0

/-! ## Call-byte parity

`callByteParity` is declared in the header (line 237); its body is not in the
sources, so it is modelled from the spec. -/

/-- Number of set bits of a byte (call bytes are 8-bit values). -/
def popcount (n : Nat) : Nat :=
  ((List.range 8).map fun i => n / 2 ^ i % 2).sum

/-- Modelled from the spec: `callByteParity` (missing from src) sets the
parity bit (bit 7) of a call byte so that the total number of set bits in the
resulting call byte is even; the low 7 bits carry the address/class. -/
def callByteParity (me : Nat) : Nat :=
  let low := me % 128
  if popcount low % 2 = 1 then low + 128 else low

/-! ## Ring buffers

The `XNetMessage` and `XNetBuffer` structs are in the header (lines 145-157):
a message is a length plus up to `XNetBufferMaxData` bytes, a buffer is
`XNetBufferSize` message slots with a read position `get` and a write position
`put`.  The enqueue/drain routines (`XNetReceive`, `XNetsend`,
`XNetReadBuffer`, header lines 261-266) are not in the sources, so they are
modelled from the spec; following the spec the indices are kept monotonically
increasing and wrapped (`% XNetBufferSize`) at each access. -/

/-- `XNetMessage` struct (header lines 145-149): data length and data bytes. -/
structure XNetMessage where
  length : Nat
  data : List Nat
deriving DecidableEq, Repr

/-- `XNetBuffer` struct (header lines 151-157): `XNetBufferSize` message
slots, a read index `get` and a write index `put` (the in-progress byte
cursor `pos` plays no role in whole-message enqueue/drain and is omitted). -/
structure XNetBuffer where
  msg : Fin XNetBufferSize → XNetMessage
  get : Nat
  put : Nat

/-- Number of unread messages held by the buffer. -/
def XNetBuffer.count (b : XNetBuffer) : Nat := b.put - b.get

/-- The buffer is full when it holds `XNetBufferSize` unread messages. -/
def XNetBuffer.isFull (b : XNetBuffer) : Bool := XNetBufferSize ≤ b.count

/-- Wrap a monotone index onto a physical slot. -/
def slotOf (i : Nat) : Fin XNetBufferSize := ⟨i % XNetBufferSize, by
  exact Nat.mod_lt _ (by decide)⟩

/-- Store a message at the write position and advance the write index
(the shared core of both enqueue policies). -/
def XNetBuffer.store (b : XNetBuffer) (m : XNetMessage) : XNetBuffer :=
  { msg := fun i => if i = slotOf b.put then m else b.msg i
    get := b.get
    put := b.put + 1 }

/-- Modelled from the spec: inbound (RX) enqueue, the commit step of
`XNetReceive` (missing from src) — when the buffer is full the new message is
dropped and the buffer is left unchanged; unread data is never overwritten. -/
def rxEnqueue (m : XNetMessage) (b : XNetBuffer) : XNetBuffer :=
  if b.isFull then b else b.store m

/-- Modelled from the spec: outbound (TX) enqueue, the buffering step of
`XNetsend` (missing from src) — when the buffer is full the enqueue is
rejected with a failure result and the buffer is left unchanged. -/
def txEnqueue (m : XNetMessage) (b : XNetBuffer) : Bool × XNetBuffer :=
  if b.isFull then (false, b) else (true, b.store m)

/-- Modelled from the spec: `XNetReadBuffer` / `tryRead` (missing from src)
returns and removes the oldest complete message, or none if the buffer is
empty. -/
def tryRead (b : XNetBuffer) : Option XNetMessage × XNetBuffer :=
  if b.get = b.put then (none, b)
  else (some (b.msg (slotOf b.get)), { b with get := b.get + 1 })

/-- The all-empty initial buffer. -/
def emptyBuffer : XNetBuffer :=
  { msg := fun _ => ⟨0, []⟩, get := 0, put := 0 }

/-- Structural invariant of a buffer: the write index never falls behind nor
overtakes the read index by more than the capacity. -/
def BufferInv (b : XNetBuffer) : Prop :=
  b.get ≤ b.put ∧ b.put - b.get ≤ XNetBufferSize

/-- One operation applied to a buffer by either execution context. -/
inductive BufOp where
  | rx (m : XNetMessage)
  | tx (m : XNetMessage)
  | read
deriving DecidableEq

/-- Apply one operation, discarding the result values. -/
def applyOp (b : XNetBuffer) : BufOp → XNetBuffer
  | .rx m => rxEnqueue m b
  | .tx m => (txEnqueue m b).2
  | .read => (tryRead b).2

/-- Buffer reached from the initial state by a sequence of operations. -/
def runOps (ops : List BufOp) : XNetBuffer :=
  ops.foldl applyOp emptyBuffer

/-- The queue of unread messages held by a buffer, oldest first. -/
def XNetBuffer.toList (b : XNetBuffer) : List XNetMessage :=
  (List.range b.count).map fun i => b.msg (slotOf (b.get + i))

/-- Enqueue a whole list of messages, oldest first (inbound policy). -/
def rxEnqueueAll (ms : List XNetMessage) (b : XNetBuffer) : XNetBuffer :=
  ms.foldl (fun acc m => rxEnqueue m acc) b

/-- Repeatedly drain the buffer until it is empty, collecting the messages in
the order they are returned. -/
def drainAll (b : XNetBuffer) : List XNetMessage :=
  if _h : b.get < b.put then
    b.msg (slotOf b.get) :: drainAll { b with get := b.get + 1 }
  else []
termination_by b.put - b.get
decreasing_by omega

/-! ## Slave pending-request state

`SlaveRequestLocoInfo` and `SlaveRequestLocoFkt` are declared and initialized
to `0` in the header (lines 271-272).  `getLocoInfo` returns `bool` and its
header doc comment (lines 184-188) states it returns false when another loco
info request was already active; `getLocoFkt` returns `void` (line 189).
Their bodies are not in the sources, so they are modelled from the spec. -/

/-- The two pending-request fields of the class (header lines 271-272), with
their in-class initializers. -/
structure SlaveReqState where
  SlaveRequestLocoInfo : Nat := 0
  SlaveRequestLocoFkt : Nat := 0
deriving DecidableEq, Repr

/-- The state after construction: both fields are initialized to `0`
(header lines 271-272). -/
def initSlaveReq : SlaveReqState := {}

/-- Modelled from the spec: `getLocoInfo` (missing from src) — if a loco info
request is already outstanding (stored address nonzero) the new request is
ignored and the call returns `false`; otherwise the address is recorded and
the call returns `true`. -/
def getLocoInfo (adr : Nat) (s : SlaveReqState) : Bool × SlaveReqState :=
  if s.SlaveRequestLocoInfo = 0 then
    (true, { s with SlaveRequestLocoInfo := adr })
  else (false, s)

/-- Modelled from the spec: `getLocoFkt` (missing from src) — if a function
info request is already outstanding the new request is ignored; the function
returns `void` (header line 189), so the caller receives no result either
way. -/
def getLocoFkt (adr : Nat) (s : SlaveReqState) : Unit × SlaveReqState :=
  if s.SlaveRequestLocoFkt = 0 then
    ((), { s with SlaveRequestLocoFkt := adr })
  else ((), s)

/-- A loco-info request is outstanding exactly when a second request of the
same kind would be rejected, i.e. when the stored address is nonzero. -/
def locoInfoOutstanding (s : SlaveReqState) : Prop :=
  s.SlaveRequestLocoInfo ≠ 0

instance (s : SlaveReqState) : Decidable (locoInfoOutstanding s) := by
  unfold locoInfoOutstanding; infer_instance

/-! ## Slot table

`uint16_t SlotLokUse[32]` is declared in the header (line 242): the slot
table has 32 entries.  `AddBusySlot` / `SetBusy` (lines 243-244) are not in
the sources, so the claim-request handling is modelled from the spec. -/

/-- Index type of the `SlotLokUse` array: `uint16_t SlotLokUse[32]`
(header line 242) has exactly 32 entries. -/
def SlotTableIndex : Type := Fin 32

instance : Fintype SlotTableIndex := by unfold SlotTableIndex; infer_instance

instance : DecidableEq SlotTableIndex := by
  unfold SlotTableIndex; infer_instance

/-- The slot table: each entry holds the locomotive address controlled by
that bus-device slot, `0` meaning empty. -/
def SlotTable : Type := Fin 32 → Nat

/-- The table with every slot empty. -/
def emptySlots : SlotTable := fun _ => 0

/-- First slot currently holding address `adr`, if any. -/
def findHolder (t : SlotTable) (adr : Nat) : Option (Fin 32) :=
  (List.finRange 32).find? fun s => t s = adr

/-- Modelled from the spec: the claim-request handling of `AddBusySlot`
(missing from src) — when slot `slot` asks to control address `adr`: if the
address is already held by a different slot, a "busy, held by slot S" notice
naming the holder is produced and the table is left unchanged; re-marking the
same slot with the same address is a no-op; otherwise the slot's entry is
overwritten with `adr` (clearing any previous address of that slot).  The
second component is the busy notice (`some holder` when rejected). -/
def requestControl (t : SlotTable) (slot : Fin 32) (adr : Nat) :
    SlotTable × Option (Fin 32) :=
  if adr = 0 then (t, none)
  else
    match findHolder t adr with
    | some s => if s = slot then (t, none) else (t, some s)
    | none => (fun i => if i = slot then adr else t i, none)

/-- Modelled from the spec: `release(slot)` clears the slot's entry. -/
def releaseSlot (t : SlotTable) (slot : Fin 32) : SlotTable :=
  fun i => if i = slot then 0 else t i

/-- A nonzero locomotive address is held by at most one slot. -/
def SlotInv (t : SlotTable) : Prop :=
  ∀ s₁ s₂ : Fin 32, t s₁ ≠ 0 → t s₁ = t s₂ → s₁ = s₂

/-- One slot-table operation performed by the dispatcher. -/
inductive SlotOp where
  | request (slot : Fin 32) (adr : Nat)
  | release (slot : Fin 32)

/-- Apply one slot-table operation, discarding the busy notice. -/
def applySlotOp (t : SlotTable) : SlotOp → SlotTable
  | .request slot adr => (requestControl t slot adr).1
  | .release slot => releaseSlot t slot

/-- A well-formed dispatcher operation: locomotive addresses put into the
slot table are 14-bit values (the XpressNet locomotive address space). -/
def SlotOpOK : SlotOp → Prop
  | .request _ adr => adr < 2 ^ 14
  | .release _ => True

/-- Slot table reached from the empty table by a sequence of operations. -/
def runSlotOps (ops : List SlotOp) : SlotTable :=
  ops.foldl applySlotOp emptySlots

/-! ## Bus arbitrator role state

`XNetSlaveMode` ("> 0 then we are working in SLAVE MODE", header line 227),
`XNetSlaveInit` (line 228), `XModeAuto` (line 226) and `XNetSlaveCycle`
(line 108) are declared in the header; the `update()` role logic is not in
the sources, so the state machine is modelled from the spec. -/

/-- The roles of the arbitrator state machine. -/
inductive XNetRole where
  | Master
  | SlaveInitializing
  | Slave
deriving DecidableEq, Repr

/-- Role-relevant fields of the class: the automatic mode-switch flag, the
slave-mode cycle countdown (`0` = master) and the pending-initialization
flag. -/
structure ArbState where
  XModeAuto : Bool
  XNetSlaveMode : Nat
  XNetSlaveInit : Bool
deriving DecidableEq, Repr

/-- The role encoded by the state: master when the slave countdown is zero,
slave-initializing while the init sequence is pending, slave otherwise. -/
def role (s : ArbState) : XNetRole :=
  if s.XNetSlaveMode = 0 then .Master
  else if s.XNetSlaveInit then .SlaveInitializing
  else .Slave

/-- What the arbitrator observes on the bus during one poll step. -/
inductive PollObs where
  | foreignCallByte
  | noCallByte
deriving DecidableEq, Repr

/-- Modelled from the spec: one poll step of the role state machine (the role
logic of `update()`, missing from src).  With automatic switching enabled, a
call byte not generated locally moves a master into slave mode (countdown
reloaded to `XNetSlaveCycle`, initialization pending); a slave observing a
call byte reloads the countdown; with no call byte a slave decrements the
countdown and reverts to master once it reaches zero.  A step also completes
a pending initialization sequence. -/
def pollStep (s : ArbState) (obs : PollObs) : ArbState :=
  if ¬ s.XModeAuto then
    match obs with
    | .foreignCallByte =>
        { s with XNetSlaveMode := XNetSlaveCycle, XNetSlaveInit := false }
    | .noCallByte => { s with XNetSlaveInit := false }
  else
    match obs with
    | .foreignCallByte =>
        if s.XNetSlaveMode = 0 then
          { s with XNetSlaveMode := XNetSlaveCycle, XNetSlaveInit := true }
        else
          { s with XNetSlaveMode := XNetSlaveCycle, XNetSlaveInit := false }
    | .noCallByte =>
        { s with XNetSlaveMode := s.XNetSlaveMode - 1, XNetSlaveInit := false }

/-- Iterate poll steps on one fixed observation. -/
def pollSteps (s : ArbState) (obs : PollObs) : Nat → ArbState
  | 0 => s
  | n + 1 => pollSteps (pollStep s obs) obs n

/-- Apply `tryRead` `n` times, keeping only the final buffer state. -/
def readN : Nat → XNetBuffer → XNetBuffer
  | 0, b => b
  | n + 1, b => readN n (tryRead b).2

/-! ## Helper lemmas: checksum -/

theorem xorFold_acc (acc : Nat) (l : List Nat) :
    xorFold acc l = acc ^^^ xorFold 0 l := by
  induction l generalizing acc with
  | nil => simp [xorFold]
  | cons b rest ih =>
    rw [xorFold, xorFold, ih (acc ^^^ b), ih (0 ^^^ b)]
    simp [Nat.xor_assoc]

theorem xorFold_append (l₁ l₂ : List Nat) :
    xorFold 0 (l₁ ++ l₂) = xorFold 0 l₁ ^^^ xorFold 0 l₂ := by
  induction l₁ with
  | nil => simp [xorFold]
  | cons b rest ih =>
    rw [List.cons_append, xorFold, xorFold, xorFold_acc (0 ^^^ b),
      xorFold_acc (0 ^^^ b), ih]
    simp [Nat.xor_assoc]

theorem xorFold_set (l : List Nat) (i : Nat) (hi : i < l.length) (m : Nat) :
    xorFold 0 (l.set i (l.get ⟨i, hi⟩ ^^^ m)) = xorFold 0 l ^^^ m := by
  induction l generalizing i with
  | nil => simp at hi
  | cons b rest ih =>
    cases i with
    | zero =>
      rw [List.set]
      rw [xorFold, xorFold, xorFold_acc, xorFold_acc (0 ^^^ b)]
      simp only [List.get]
      simp [Nat.xor_assoc, Nat.xor_comm m]
    | succ j =>
      rw [List.set]
      rw [xorFold, xorFold, xorFold_acc, xorFold_acc (0 ^^^ b)]
      have hj : j < rest.length := by simpa using hi
      simp only [List.get_cons_succ]
      rw [ih j hj]
      simp [Nat.xor_assoc]

/-! ## Helper lemmas: ring buffer -/

theorem bufferInv_store (b : XNetBuffer) (m : XNetMessage)
    (h : BufferInv b) (hnf : b.count < XNetBufferSize) :
    BufferInv (b.store m) := by
  unfold BufferInv XNetBuffer.store XNetBuffer.count at *
  simp only
  omega

theorem notFull_of_not_isFull (b : XNetBuffer) (h : ¬ b.isFull = true) :
    b.count < XNetBufferSize := by
  unfold XNetBuffer.isFull at h
  simp at h
  exact h

theorem bufferInv_applyOp (b : XNetBuffer) (op : BufOp) (h : BufferInv b) :
    BufferInv (applyOp b op) := by
  cases op with
  | rx m =>
    simp only [applyOp, rxEnqueue]
    split
    · exact h
    · next hful => exact bufferInv_store b m h (notFull_of_not_isFull b hful)
  | tx m =>
    simp only [applyOp, txEnqueue]
    split
    · exact h
    · next hful => exact bufferInv_store b m h (notFull_of_not_isFull b hful)
  | read =>
    simp only [applyOp, tryRead]
    split
    · exact h
    · unfold BufferInv at *
      dsimp only
      omega

theorem bufferInv_foldl (ops : List BufOp) (b : XNetBuffer)
    (h : BufferInv b) : BufferInv (ops.foldl applyOp b) := by
  induction ops generalizing b with
  | nil => exact h
  | cons op rest ih => exact ih _ (bufferInv_applyOp _ _ h)

theorem bufferInv_empty : BufferInv emptyBuffer := by
  constructor <;> simp [emptyBuffer]

theorem slotOf_ne (a b : Nat) (hlt : a < b) (hgap : b - a < XNetBufferSize) :
    slotOf a ≠ slotOf b := by
  unfold slotOf
  intro hEq
  have h5 : a % 5 = b % 5 := by
    simpa [XNetBufferSize, Fin.ext_iff] using hEq
  simp only [XNetBufferSize] at hgap
  omega

theorem toList_store (b : XNetBuffer) (m : XNetMessage)
    (hinv : BufferInv b) (hnf : b.count < XNetBufferSize) :
    (b.store m).toList = b.toList ++ [m] := by
  obtain ⟨hle, hcap⟩ := hinv
  have hcount : (b.store m).count = b.count + 1 := by
    unfold XNetBuffer.store XNetBuffer.count at *
    simp only
    omega
  unfold XNetBuffer.toList
  rw [hcount, List.range_succ, List.map_append, List.map_singleton]
  congr 1
  · apply List.map_congr_left
    intro i hi
    rw [List.mem_range] at hi
    unfold XNetBuffer.store
    simp only
    rw [if_neg]
    apply slotOf_ne
    · unfold XNetBuffer.count at hi
      omega
    · unfold XNetBuffer.count at hi hnf
      omega
  · unfold XNetBuffer.store
    simp only
    rw [if_pos]
    have : b.get + b.count = b.put := by
      unfold XNetBuffer.count
      omega
    rw [this]

theorem rxEnqueue_store (b : XNetBuffer) (m : XNetMessage)
    (hnf : b.count < XNetBufferSize) :
    rxEnqueue m b = b.store m := by
  unfold rxEnqueue
  rw [if_neg]
  unfold XNetBuffer.isFull
  simp
  omega

theorem toList_rxEnqueueAll (ms : List XNetMessage) (b : XNetBuffer)
    (hinv : BufferInv b) (hfit : b.count + ms.length ≤ XNetBufferSize) :
    (rxEnqueueAll ms b).toList = b.toList ++ ms := by
  induction ms generalizing b with
  | nil => simp [rxEnqueueAll]
  | cons m rest ih =>
    have hnf : b.count < XNetBufferSize := by
      simp only [List.length_cons] at hfit
      omega
    have hstep : rxEnqueueAll (m :: rest) b = rxEnqueueAll rest (b.store m) := by
      unfold rxEnqueueAll
      rw [List.foldl_cons, rxEnqueue_store b m hnf]
    rw [hstep, ih (b.store m) (bufferInv_store b m hinv hnf)]
    · rw [toList_store b m hinv hnf]
      simp
    · have : (b.store m).count = b.count + 1 := by
        obtain ⟨hle, _⟩ := hinv
        unfold XNetBuffer.store XNetBuffer.count at *
        simp only
        omega
      rw [this]
      simp only [List.length_cons] at hfit
      omega

theorem drainAll_toList_aux (n : Nat) (b : XNetBuffer)
    (hn : b.put - b.get = n) : drainAll b = b.toList := by
  induction n generalizing b with
  | zero =>
    rw [drainAll, dif_neg (by omega)]
    unfold XNetBuffer.toList XNetBuffer.count
    rw [hn]
    simp
  | succ k ih =>
    rw [drainAll, dif_pos (by omega)]
    rw [ih { b with get := b.get + 1 } (by dsimp only; omega)]
    unfold XNetBuffer.toList XNetBuffer.count
    dsimp only
    have hc : b.put - b.get = (b.put - (b.get + 1)) + 1 := by omega
    rw [hc, List.range_succ_eq_map]
    rw [List.map_cons, List.map_map]
    congr 1
    apply List.map_congr_left
    intro i _
    simp only [Function.comp_apply]
    congr 1
    simp only [slotOf, XNetBufferSize, Fin.mk.injEq]
    omega

theorem drainAll_eq_toList (b : XNetBuffer) : drainAll b = b.toList :=
  drainAll_toList_aux (b.put - b.get) b rfl

theorem length_toList (b : XNetBuffer) : b.toList.length = b.count := by
  unfold XNetBuffer.toList
  simp

theorem readN_none (n : Nat) (b : XNetBuffer) (hinv : BufferInv b)
    (hc : b.count = n) : (tryRead (readN n b)).1 = none := by
  induction n generalizing b with
  | zero =>
    obtain ⟨hle, _⟩ := hinv
    unfold XNetBuffer.count at hc
    unfold readN tryRead
    rw [if_pos]
    omega
  | succ k ih =>
    have hlt : b.get < b.put := by
      unfold XNetBuffer.count at hc
      omega
    have hstep : (tryRead b).2 = { b with get := b.get + 1 } := by
      unfold tryRead
      rw [if_neg]
      omega
    unfold readN
    rw [hstep]
    apply ih
    · obtain ⟨hle, hcap⟩ := hinv
      unfold BufferInv XNetBuffer.count at *
      constructor
      · simp only
        omega
      · simp only
        omega
    · unfold XNetBuffer.count at hc ⊢
      simp only
      omega

/-! ## Helper lemmas: slot table -/

theorem findHolder_none (t : SlotTable) (adr : Nat)
    (h : findHolder t adr = none) : ∀ s : Fin 32, t s ≠ adr := by
  intro s hs
  unfold findHolder at h
  rw [List.find?_eq_none] at h
  exact absurd (by simpa using hs) (by simpa using h s (List.mem_finRange s))

theorem findHolder_holds (t : SlotTable) (adr : Nat) (s : Fin 32)
    (h : findHolder t adr = some s) : t s = adr := by
  unfold findHolder at h
  have := List.find?_some h
  simpa using this

theorem slotInv_requestControl (t : SlotTable) (slot : Fin 32) (adr : Nat)
    (h : SlotInv t) : SlotInv (requestControl t slot adr).1 := by
  by_cases hadr : adr = 0
  · simp only [requestControl, if_pos hadr]
    exact h
  · cases hfind : findHolder t adr with
    | some s =>
      by_cases hs : s = slot
      · simp only [requestControl, if_neg hadr, hfind, if_pos hs]
        exact h
      · simp only [requestControl, if_neg hadr, hfind, if_neg hs]
        exact h
    | none =>
      simp only [requestControl, if_neg hadr, hfind]
      intro s₁ s₂ h₁ h₂
      simp only at h₁ h₂
      by_cases e₁ : s₁ = slot <;> by_cases e₂ : s₂ = slot
      · rw [e₁, e₂]
      · exfalso
        rw [if_pos e₁, if_neg e₂] at h₂
        exact findHolder_none t adr hfind s₂ h₂.symm
      · exfalso
        rw [if_neg e₁, if_pos e₂] at h₂
        exact findHolder_none t adr hfind s₁ h₂
      · rw [if_neg e₁, if_neg e₂] at h₂
        rw [if_neg e₁] at h₁
        exact h s₁ s₂ h₁ h₂

theorem slotInv_release (t : SlotTable) (slot : Fin 32)
    (h : SlotInv t) : SlotInv (releaseSlot t slot) := by
  unfold releaseSlot
  intro s₁ s₂ h₁ h₂
  simp only at h₁ h₂
  by_cases e₁ : s₁ = slot
  · rw [if_pos e₁] at h₁
    exact absurd rfl h₁
  · rw [if_neg e₁] at h₁ h₂
    by_cases e₂ : s₂ = slot
    · rw [if_pos e₂] at h₂
      exact absurd h₂ h₁
    · rw [if_neg e₂] at h₂
      exact h s₁ s₂ h₁ h₂

theorem slotInv_empty : SlotInv emptySlots := by
  intro s₁ s₂ h₁ _
  exact absurd rfl h₁

theorem slotInv_foldl (ops : List SlotOp) (t : SlotTable)
    (h : SlotInv t) : SlotInv (ops.foldl applySlotOp t) := by
  induction ops generalizing t with
  | nil => exact h
  | cons op rest ih =>
    apply ih
    cases op with
    | request slot adr => exact slotInv_requestControl t slot adr h
    | release slot => exact slotInv_release t slot h

theorem slotEntries_applySlotOp (t : SlotTable) (op : SlotOp)
    (h : ∀ i, t i = 0 ∨ t i < 2 ^ 14) (hop : SlotOpOK op) :
    ∀ i, applySlotOp t op i = 0 ∨ applySlotOp t op i < 2 ^ 14 := by
  intro i
  cases op with
  | request slot adr =>
    simp only [applySlotOp]
    by_cases hadr : adr = 0
    · simp only [requestControl, if_pos hadr]
      exact h i
    · cases hfind : findHolder t adr with
      | some s =>
        by_cases hs : s = slot
        · simp only [requestControl, if_neg hadr, hfind, if_pos hs]
          exact h i
        · simp only [requestControl, if_neg hadr, hfind, if_neg hs]
          exact h i
      | none =>
        simp only [requestControl, if_neg hadr, hfind]
        by_cases hi : i = slot
        · rw [if_pos hi]
          exact Or.inr hop
        · rw [if_neg hi]
          exact h i
  | release slot =>
    simp only [applySlotOp, releaseSlot]
    by_cases hi : i = slot
    · rw [if_pos hi]
      exact Or.inl rfl
    · rw [if_neg hi]
      exact h i

theorem slotEntries_foldl (ops : List SlotOp) (t : SlotTable)
    (h : ∀ i, t i = 0 ∨ t i < 2 ^ 14) (hops : ∀ op ∈ ops, SlotOpOK op) :
    ∀ i, ops.foldl applySlotOp t i = 0 ∨ ops.foldl applySlotOp t i < 2 ^ 14 := by
  induction ops generalizing t with
  | nil => exact h
  | cons op rest ih =>
    rw [List.foldl_cons]
    exact ih _
      (slotEntries_applySlotOp t op h (hops op (List.mem_cons_self op rest)))
      (fun o ho => hops o (List.mem_cons_of_mem op ho))

theorem findHolder_unique (t : SlotTable) (adr : Nat) (s : Fin 32)
    (hinv : SlotInv t) (hs : t s = adr) (hnz : adr ≠ 0) :
    findHolder t adr = some s := by
  cases hfind : findHolder t adr with
  | none => exact absurd hs (findHolder_none t adr hfind s)
  | some s₀ =>
    have h₀ : t s₀ = adr := findHolder_holds t adr s₀ hfind
    have : s₀ = s := hinv s₀ s (by rw [h₀]; exact hnz) (by rw [h₀, hs])
    rw [this]

/-! ## Helper lemmas: arbitrator -/

theorem pollSteps_noCall (t : ArbState) (hauto : t.XModeAuto = true)
    (hinit : t.XNetSlaveInit = false) (n : Nat) :
    pollSteps t .noCallByte n =
      { XModeAuto := t.XModeAuto
        XNetSlaveMode := t.XNetSlaveMode - n
        XNetSlaveInit := false } := by
  induction n generalizing t with
  | zero =>
    cases t
    simp only [pollSteps, Nat.sub_zero]
    simp_all
  | succ k ih =>
    have hstep : pollStep t .noCallByte =
        { XModeAuto := t.XModeAuto
          XNetSlaveMode := t.XNetSlaveMode - 1
          XNetSlaveInit := false } := by
      unfold pollStep
      rw [if_neg (by simp [hauto])]
    rw [pollSteps, hstep]
    rw [ih { XModeAuto := t.XModeAuto, XNetSlaveMode := t.XNetSlaveMode - 1,
             XNetSlaveInit := false } hauto rfl]
    simp only [ArbState.mk.injEq, true_and, and_true]
    omega

theorem toList_empty : emptyBuffer.toList = [] := by
  unfold XNetBuffer.toList XNetBuffer.count emptyBuffer
  simp

theorem bufferInv_rxEnqueueAll (ms : List XNetMessage) (b : XNetBuffer)
    (h : BufferInv b) : BufferInv (rxEnqueueAll ms b) := by
  induction ms generalizing b with
  | nil => exact h
  | cons m rest ih =>
    unfold rxEnqueueAll
    rw [List.foldl_cons]
    exact ih _ (bufferInv_applyOp b (.rx m) h)

/-! ## Claim theorems -/

/-- C1: For every header byte and data-byte sequence of up to 7 data bytes,
encoding a message by appending the checksum (the exclusive-or reduction of
header through last data byte, the call byte being excluded by construction)
yields a frame that `XNetCheckXOR` accepts: XOR-ing all bytes from header
through the trailing checksum byte inclusive equals zero. -/
theorem C1_encode_passes_verify (header : Nat) (data : List Nat)
    (_hlen : data.length ≤ 7) :
    XNetCheckXOR (encode header data) = true := by
  unfold XNetCheckXOR encode
  rw [xorFold_append]
  unfold getXOR
  simp [xorFold, Nat.xor_self]

theorem C1_witness :
    ([0x52, 0x05] : List Nat).length ≤ 7 ∧
      XNetCheckXOR (encode 0xE4 [0x52, 0x05]) = true :=
  ⟨by decide, C1_encode_passes_verify 0xE4 [0x52, 0x05] (by decide)⟩

/-- C9: For every frame accepted by `XNetCheckXOR`, flipping any single bit
of any byte of the frame (header, any data byte, or the checksum byte — the
frame being the checksum domain, which excludes the call byte) makes
`XNetCheckXOR` return false. -/
theorem C9_bitflip_fails_verify (frame : List Nat) (i j : Nat)
    (hi : i < frame.length) (_hj : j < 8)
    (hvalid : XNetCheckXOR frame = true) :
    XNetCheckXOR (frame.set i (frame.get ⟨i, hi⟩ ^^^ 2 ^ j)) = false := by
  unfold XNetCheckXOR at hvalid ⊢
  have h0 : xorFold 0 frame = 0 := by simpa using hvalid
  rw [xorFold_set frame i hi (2 ^ j), h0, Nat.zero_xor]
  have hne : (2 : Nat) ^ j ≠ 0 := pow_ne_zero j (by norm_num)
  simp [hne]

theorem C9_witness :
    1 < (encode 0xE4 [0x52]).length ∧ (0 : Nat) < 8 ∧
      XNetCheckXOR (encode 0xE4 [0x52]) = true ∧
      XNetCheckXOR ((encode 0xE4 [0x52]).set 1
        ((encode 0xE4 [0x52]).get ⟨1, by decide⟩ ^^^ 2 ^ 0)) = false :=
  ⟨by decide, by decide, by decide,
    C9_bitflip_fails_verify (encode 0xE4 [0x52]) 1 0 (by decide) (by decide)
      (by decide)⟩

/-- C6: For every device address in the polled range 1..31, the call byte
produced by `callByteParity` has an even total number of set bits. -/
theorem C6_callByteParity_even (a : Nat) (h1 : 1 ≤ a) (h2 : a ≤ 31) :
    Even (popcount (callByteParity a)) := by
  have key : ∀ x : Fin 32, Even (popcount (callByteParity x.val)) := by decide
  simpa using key ⟨a, by omega⟩

theorem C6_witness :
    1 ≤ 3 ∧ 3 ≤ 31 ∧ Even (popcount (callByteParity 3)) :=
  ⟨by decide, by decide, C6_callByteParity_even 3 (by decide) (by decide)⟩

/-- C2: Every slot table reachable from the empty table satisfies the
invariant that a nonzero locomotive address is claimed by at most one slot;
and when a claim request arrives for an address already held by a different
slot, the request is answered with a busy notice naming the holder and the
slot table is left unchanged. -/
theorem C2_busy_no_reassign (ops : List SlotOp) (t : SlotTable)
    (slot s : Fin 32) (adr : Nat) (hinv : SlotInv t) (hnz : adr ≠ 0)
    (hold : t s = adr) (hne : s ≠ slot) :
    SlotInv (runSlotOps ops) ∧ requestControl t slot adr = (t, some s) := by
  constructor
  · exact slotInv_foldl ops emptySlots slotInv_empty
  · have hfind := findHolder_unique t adr s hinv hold hnz
    simp only [requestControl, if_neg hnz, hfind]
    rw [if_neg hne]

theorem C2_witness :
    SlotInv (runSlotOps [.request 3 77]) ∧
      requestControl (fun i => if i = (0 : Fin 32) then 42 else 0) 5 42 =
        ((fun i => if i = (0 : Fin 32) then 42 else 0), some 0) :=
  C2_busy_no_reassign [.request 3 77]
    (fun i => if i = (0 : Fin 32) then 42 else 0) 5 0 42
    (by unfold SlotInv; decide) (by decide) (by decide) (by decide)

/-- C8 counterexample: the slot table is `uint16_t SlotLokUse[32]`
(XpressNetMaster.h line 242) — it has 32 entries, not 31, and slot number 31
is a valid index; so the index range is not exactly 0..30. -/
theorem C8_counterexample :
    Fintype.card SlotTableIndex ≠ 31 ∧ emptySlots ⟨31, by norm_num⟩ = 0 :=
  ⟨by decide, rfl⟩

/-- C8 (amended): the slot table is an array indexed by bus-device slot
number ranging exactly over 0..31 (32 entries), each entry either empty
(holding 0, as every entry of the initial table does) or holding a 14-bit
locomotive address: in every table reachable by dispatcher operations whose
requested addresses lie in the 14-bit locomotive address space, every entry
is 0 or below 2^14. -/
theorem C8_amended_size (ops : List SlotOp)
    (hops : ∀ op ∈ ops, SlotOpOK op) :
    Fintype.card SlotTableIndex = 32 ∧ (∀ i : Fin 32, emptySlots i = 0) ∧
      ∀ i : Fin 32, runSlotOps ops i = 0 ∨ runSlotOps ops i < 2 ^ 14 :=
  ⟨by decide, fun _ => rfl,
    slotEntries_foldl ops emptySlots (fun _ => Or.inl rfl) hops⟩

theorem C8_amended_witness :
    Fintype.card SlotTableIndex = 32 ∧ (∀ i : Fin 32, emptySlots i = 0) ∧
      ∀ i : Fin 32, runSlotOps [.request 3 1000, .release 2] i = 0 ∨
        runSlotOps [.request 3 1000, .release 2] i < 2 ^ 14 :=
  C8_amended_size [.request 3 1000, .release 2]
    (by intro op hop
        rcases List.mem_cons.mp hop with h | h
        · rw [h]
          norm_num [SlotOpOK]
        · rcases List.mem_cons.mp h with h2 | h2
          · rw [h2]
            exact trivial
          · exact absurd h2 (List.not_mem_nil op))

/-- C4: When a ring buffer holds `XNetBufferSize` (5) unread messages,
an inbound enqueue leaves the buffer unchanged (the message is dropped,
unread data is never overwritten) and an outbound enqueue is rejected with a
failure result and leaves the buffer unchanged; and every buffer state
reachable from the initial state satisfies the invariant that the write
index never overtakes the read index by more than the capacity. -/
theorem C4_overflow_policies (b : XNetBuffer) (m₁ m₂ : XNetMessage)
    (ops : List BufOp) (hfull : b.count = XNetBufferSize) :
    rxEnqueue m₁ b = b ∧ txEnqueue m₂ b = (false, b) ∧
      BufferInv (runOps ops) := by
  have hisfull : b.isFull = true := by
    unfold XNetBuffer.isFull
    simp [hfull]
  refine ⟨?_, ?_, ?_⟩
  · unfold rxEnqueue
    rw [if_pos hisfull]
  · unfold txEnqueue
    rw [if_pos hisfull]
  · exact bufferInv_foldl ops emptyBuffer bufferInv_empty

theorem C4_witness :
    rxEnqueue ⟨1, [0x21]⟩ { msg := fun _ => ⟨0, []⟩, get := 0, put := 5 } =
        { msg := fun _ => ⟨0, []⟩, get := 0, put := 5 } ∧
      txEnqueue ⟨1, [0x52]⟩ { msg := fun _ => ⟨0, []⟩, get := 0, put := 5 } =
        (false, { msg := fun _ => ⟨0, []⟩, get := 0, put := 5 }) ∧
      BufferInv (runOps [.rx ⟨1, [0x21]⟩, .read]) :=
  C4_overflow_policies { msg := fun _ => ⟨0, []⟩, get := 0, put := 5 }
    ⟨1, [0x21]⟩ ⟨1, [0x52]⟩ [.rx ⟨1, [0x21]⟩, .read] rfl

/-- C7: For every list of at most `XNetBufferSize` messages, enqueueing them
into the empty ring buffer and then repeatedly draining it yields exactly
those messages in first-in-first-out order, each drain returning and removing
the oldest message; and after they have all been read, a further read
returns none. -/
theorem C7_fifo_drain (ms : List XNetMessage)
    (hk : ms.length ≤ XNetBufferSize) :
    drainAll (rxEnqueueAll ms emptyBuffer) = ms ∧
      (tryRead (readN ms.length (rxEnqueueAll ms emptyBuffer))).1 = none := by
  have hinv : BufferInv (rxEnqueueAll ms emptyBuffer) :=
    bufferInv_rxEnqueueAll ms emptyBuffer bufferInv_empty
  have hfit : emptyBuffer.count + ms.length ≤ XNetBufferSize := by
    simpa [emptyBuffer, XNetBuffer.count] using hk
  have htl : (rxEnqueueAll ms emptyBuffer).toList = ms := by
    rw [toList_rxEnqueueAll ms emptyBuffer bufferInv_empty hfit, toList_empty]
    simp
  have hcount : (rxEnqueueAll ms emptyBuffer).count = ms.length := by
    rw [← length_toList, htl]
  constructor
  · rw [drainAll_eq_toList, htl]
  · exact readN_none ms.length (rxEnqueueAll ms emptyBuffer) hinv hcount

theorem C7_witness :
    ([⟨1, [0x21]⟩, ⟨1, [0x24]⟩] : List XNetMessage).length ≤ XNetBufferSize ∧
      drainAll (rxEnqueueAll [⟨1, [0x21]⟩, ⟨1, [0x24]⟩] emptyBuffer) =
        [⟨1, [0x21]⟩, ⟨1, [0x24]⟩] ∧
      (tryRead (readN 2 (rxEnqueueAll [⟨1, [0x21]⟩, ⟨1, [0x24]⟩]
        emptyBuffer))).1 = none :=
  ⟨by decide, C7_fifo_drain [⟨1, [0x21]⟩, ⟨1, [0x24]⟩] (by decide)⟩

/-- C5: With automatic mode switching enabled, the role state machine makes
exactly the automatic transitions the spec names: a master observing a call
byte not generated locally becomes slave-initializing within one poll step
(and stays master when no call byte appears); a slave observing no call byte
for `XNetSlaveCycle` consecutive poll steps reverts to master (while a slave
observing a call byte stays slave). -/
theorem C5_role_auto_transitions (s t : ArbState)
    (hsa : s.XModeAuto = true) (hsm : role s = .Master)
    (hta : t.XModeAuto = true) (hts : role t = .Slave)
    (htc : t.XNetSlaveMode ≤ XNetSlaveCycle) :
    role (pollStep s .foreignCallByte) = .SlaveInitializing ∧
      role (pollStep s .noCallByte) = .Master ∧
      role (pollSteps t .noCallByte XNetSlaveCycle) = .Master ∧
      role (pollStep t .foreignCallByte) = .Slave := by
  have hs0 : s.XNetSlaveMode = 0 := by
    by_contra hne
    unfold role at hsm
    rw [if_neg hne] at hsm
    split at hsm <;> simp at hsm
  have ht0 : t.XNetSlaveMode ≠ 0 := by
    intro h0
    unfold role at hts
    rw [if_pos h0] at hts
    simp at hts
  have hti : t.XNetSlaveInit = false := by
    by_contra hi
    rw [Bool.not_eq_false] at hi
    unfold role at hts
    rw [if_neg ht0, if_pos hi] at hts
    simp at hts
  refine ⟨?_, ?_, ?_, ?_⟩
  · simp [pollStep, role, hsa, hs0, XNetSlaveCycle]
  · simp [pollStep, role, hsa, hs0]
  · rw [pollSteps_noCall t hta hti]
    unfold role
    dsimp only
    rw [if_pos (by simp only [XNetSlaveCycle] at htc ⊢; omega)]
  · simp [pollStep, role, hta, ht0, XNetSlaveCycle]

theorem C5_witness :
    role (pollStep ⟨true, 0, false⟩ .foreignCallByte) = .SlaveInitializing ∧
      role (pollStep ⟨true, 0, false⟩ .noCallByte) = .Master ∧
      role (pollSteps ⟨true, 255, false⟩ .noCallByte XNetSlaveCycle) =
        .Master ∧
      role (pollStep ⟨true, 255, false⟩ .foreignCallByte) = .Slave :=
  C5_role_auto_transitions ⟨true, 0, false⟩ ⟨true, 255, false⟩ rfl rfl rfl rfl
    (by decide)

/-- C3 counterexample: with a function-info request outstanding
(`SlaveRequestLocoFkt = 5`), a second `getLocoFkt` call is ignored — the
pending state is unchanged — yet the value returned to the caller is
identical to that of an accepted call (`getLocoFkt` returns void,
XpressNetMaster.h line 189), so for the function-info kind the API call does
not report the failure to the caller as the claim states. -/
theorem C3_counterexample :
    (getLocoFkt 3 ⟨0, 5⟩).2 = (⟨0, 5⟩ : SlaveReqState) ∧
      (getLocoFkt 3 ⟨0, 5⟩).1 = (getLocoFkt 3 ⟨0, 0⟩).1 :=
  ⟨rfl, rfl⟩

/-- C3 (amended): for each kind of pending request separately, a second
request of that kind issued while one of the same kind is still outstanding
is rejected rather than queued and the pending-request state is unchanged
from the first call; `getLocoInfo` reports the failure to the caller by
returning false, while `getLocoFkt` returns void, so the rejection of a
function-info request is silent.  The two states are independent, so each
hypothesis constrains only the kind it concerns. -/
theorem C3_pending_reject (a b : Nat) (s₁ s₂ : SlaveReqState)
    (hInfo : s₁.SlaveRequestLocoInfo ≠ 0)
    (hFkt : s₂.SlaveRequestLocoFkt ≠ 0) :
    getLocoInfo a s₁ = (false, s₁) ∧ (getLocoFkt b s₂).2 = s₂ := by
  unfold getLocoInfo getLocoFkt
  rw [if_neg hInfo, if_neg hFkt]
  exact ⟨rfl, rfl⟩

theorem C3_witness :
    getLocoInfo 1000 (getLocoInfo 1000 initSlaveReq).2 =
        (false, (getLocoInfo 1000 initSlaveReq).2) ∧
      (getLocoFkt 1000 ⟨0, 9⟩).2 = (⟨0, 9⟩ : SlaveReqState) :=
  C3_pending_reject 1000 1000 (getLocoInfo 1000 initSlaveReq).2 ⟨0, 9⟩
    (by decide) (by decide)

/-- C10: the pending loco-info and function-info request states are stored
locomotive addresses with 0 as the "no request outstanding" sentinel: both
are initialized to 0; a loco-info request is rejected exactly when the
stored address is nonzero; and a request for locomotive address 0 leaves the
stored sentinel at 0, so it is never recorded as outstanding and cannot
block a subsequent request of the same kind. -/
theorem C10_zero_sentinel :
    initSlaveReq.SlaveRequestLocoInfo = 0 ∧
      initSlaveReq.SlaveRequestLocoFkt = 0 ∧
      (∀ (s : SlaveReqState) (a : Nat),
        (getLocoInfo a s).1 = false ↔ locoInfoOutstanding s) ∧
      (getLocoInfo 0 initSlaveReq).2 = initSlaveReq ∧
      (getLocoFkt 0 initSlaveReq).2 = initSlaveReq ∧
      (∀ a : Nat, (getLocoInfo a (getLocoInfo 0 initSlaveReq).2).1 = true) ∧
      (∀ a : Nat,
        (getLocoFkt a
          (getLocoFkt 0 initSlaveReq).2).2.SlaveRequestLocoFkt = a) := by
  refine ⟨rfl, rfl, ?_, rfl, rfl, fun a => rfl, fun a => rfl⟩
  intro s a
  unfold getLocoInfo locoInfoOutstanding
  by_cases h : s.SlaveRequestLocoInfo = 0
  · rw [if_pos h]
    simp [h]
  · rw [if_neg h]
    simp [h]

end XpressNet
